import Mathlib

/-!
Verification of the ImageDiff screenshot-regression viewer
(`ImageDiffwithPython/main.py` and `ImageDiffwithPython/imagediff.py`).

Shallow embedding conventions:

* Python strings (build names, movie names, filenames, frame tokens) are
  modelled as `List Char` (`Name` below); Python compares strings by code
  point, which is exactly `lexLt`/`lexLe` below.
* The filesystem below `SCREENSHOTS_DIR/<target>` is an oracle record
  `Target`: directory entries of the target directory, an `isdir` test for
  them, per-build directory listings, an `isfile` test, an `os.path.exists`
  test for frame files, and the outcome of the PIL pixel work done by
  `image_diff` on a pair of image paths (a path is a `(build, filename)`
  pair, the target being fixed).
* `image_diff`'s PIL section either computes a bounding-box difference
  (`PixelOutcome.ok hasDiff`), raises `IOError` (caught inside `image_diff`,
  which then returns the empty dict `{}`), or raises some other exception
  which propagates (`PixelOutcome.exc`).  The base64 payloads of the result
  dict play no role in any claim, so a result dict is modelled by whether
  it has a `has_diff` entry and that entry's value.
* Fallible calls are `Except Unit`; Python dict/`None`/empty-string
  truthiness is modelled explicitly where the code relies on it.
-/

/-- Python strings, as lists of characters (code points). -/
abbrev Name := List Char

/-- Code-point lexicographic strict order, as Python `<` on strings. -/
def lexLt : Name → Name → Bool
  | [], [] => false
  | [], _ :: _ => true
  | _ :: _, [] => false
  | a :: as, b :: bs => if a = b then lexLt as bs else decide (a < b)

/-- Code-point lexicographic order, as Python `<=` on strings. -/
def lexLe : Name → Name → Bool
  | [], _ => true
  | _ :: _, [] => false
  | a :: as, b :: bs => if a = b then lexLe as bs else decide (a < b)

/-- Python `s.split(sep)` for a one-character separator: splitting the empty
string gives `[""]`, adjacent separators give empty pieces. -/
def pySplit (sep : Char) : Name → List Name
  | [] => [[]]
  | c :: rest =>
    let r := pySplit sep rest
    if c = sep then [] :: r else (c :: r.headD []) :: r.tail

/-- Python `s.startswith(p)`. -/
def startsWithName (p s : Name) : Bool :=
  match p, s with
  | [], _ => true
  | _ :: _, [] => false
  | a :: as, b :: bs => a == b && startsWithName as bs

/-- Decimal digit run accepted by Python `int()` (the optional surrounding
whitespace, `_` digit separators and non-ASCII digit forms that `int()` also
accepts are not modelled; no claim depends on them). -/
def pyIntDigits (l : Name) : Option Nat :=
  if l.isEmpty then none
  else if l.all Char.isDigit then
    some (l.foldl (fun a c => a * 10 + (c.toNat - 48)) 0)
  else none

/-- Python `int(s)` for an optionally signed decimal string; `none` models a
raised `ValueError`. -/
def pyInt : Name → Option Int
  | '-' :: rest => (pyIntDigits rest).map (fun n => -(n : Int))
  | '+' :: rest => (pyIntDigits rest).map (fun n => (n : Int))
  | l => (pyIntDigits l).map (fun n => (n : Int))

/-- `get_frame_number` (main.py lines 11-19, and the identical local helper
inside `movie_diff`, imagediff.py lines 65-72): split on `-`; if there is a
second piece, parse its part before the first `.` as an int, with `0` on
`ValueError`; otherwise `0`. -/
def get_frame_number (filename : Name) : Int :=
  match pySplit '-' filename with
  | _ :: p1 :: _ => (pyInt ((pySplit '.' p1).headD [])).getD 0
  | _ => 0

/-- `"-" in file` (main.py line 46): the filename contains a `-`. -/
def hasSep (f : Name) : Bool :=
  match pySplit '-' f with
  | _ :: _ :: _ => true
  | _ => false

/-- `parts[0]` of `file.split("-")`: the movie-name head of a filename. -/
def moviePart (f : Name) : Name := (pySplit '-' f).headD []

/-- `parts[1].split('.')[0]` (main.py line 49): the raw frame-number token of
a filename, the piece between the first `-` and the following `.`. -/
def frameTok (f : Name) : Name :=
  (pySplit '.' (((pySplit '-' f).drop 1).headD [])).headD []

/-- Outcome of the PIL work inside `image_diff` on a pair of image paths:
the comparison succeeds with `has_diff` as computed from `getbbox`, or it
raises `IOError`, or it raises some other exception. -/
inductive PixelOutcome
  | ok (hasDiff : Bool)
  | ioError
  | exc
deriving DecidableEq, Repr

/-- The result dict of `image_diff`, reduced to what the program reads from
it: either a full dict carrying `has_diff` (the image payloads are opaque to
every caller), or the empty dict `{}` returned on `IOError`. -/
inductive ImgDiffResult
  | dict (hasDiff : Bool)
  | empty
deriving DecidableEq, Repr

/-- Python `result.get('has_diff', False)`, the only read any caller
performs on an `image_diff` result. -/
def ImgDiffResult.getHasDiff : ImgDiffResult → Bool
  | .dict b => b
  | .empty => false

/-- An image path relative to the target directory: `(build, filename)`. -/
abbrev FPath := Name × Name

/-- `image_diff` (imagediff.py lines 13-31): run the PIL comparison; on
`IOError` return `{}`; any other exception propagates (`Except.error`). -/
def image_diff (px : FPath → FPath → PixelOutcome) (src cmp : FPath) :
    Except Unit ImgDiffResult :=
  match px src cmp with
  | .ok b => .ok (.dict b)
  | .ioError => .ok .empty
  | .exc => .error ()

/-- The filesystem under `SCREENSHOTS_DIR/<target>` for one fixed target,
as consulted by the program:
`entries` = `os.listdir(target_path)`, `isdir b` = `os.path.isdir` for entry
`b`, `dirExists b` = `os.path.exists(target_path/b)` (used by `movie_diff`),
`listdir b` = `os.listdir(target_path/b)`, `isfile b f` =
`os.path.isfile(target_path/b/f)`, `fexists b f` =
`os.path.exists(target_path/b/f)`, and `px` the PIL outcome for a pair of
image paths. -/
structure Target where
  entries : List Name
  isdir : Name → Bool
  dirExists : Name → Bool
  listdir : Name → List Name
  isfile : Name → Name → Bool
  fexists : Name → Name → Bool
  px : FPath → FPath → PixelOutcome

/-- The files of one movie in one build (imagediff.py lines 54-58): regular
files of the build directory whose name starts with `movie + "-"`. -/
def movieFrameFiles (t : Target) (b m : Name) : List Name :=
  (t.listdir b).filter (fun f => t.isfile b f && startsWithName (m ++ ['-']) f)

/-- A Python dict comprehension `{get_frame_number(f): f for f in frames}`,
read back at a key: later list entries overwrite earlier ones, so the lookup
finds the last file with the given frame number. -/
def frameMapLookup (frames : List Name) (n : Int) : Option Name :=
  frames.reverse.find? (fun f => get_frame_number f == n)

/-- Python `set(xs) == set(ys)` for the integer key lists. -/
def sameSet (xs ys : List Int) : Bool :=
  xs.all (fun n => ys.contains n) && ys.all (fun n => xs.contains n)

/-- One step of Python set/dict-key accumulation: append if not present. -/
def pyInsert {α : Type} [BEq α] (acc : List α) (x : α) : List α :=
  if acc.contains x then acc else acc ++ [x]

/-- Deduplicate keeping first occurrences; `sorted(set(xs + ys))` is modelled
as `insertionSort` of `pyDedup (xs ++ ys)` (for `sorted` only membership
matters, so the iteration order of the Python set is irrelevant). -/
def pyDedup {α : Type} [BEq α] (l : List α) : List α :=
  l.foldl pyInsert []

/-- `sorted(set(src_keys + cmp_keys))` (imagediff.py line 77). -/
def allFrameNumbers (src cmp : List Int) : List Int :=
  (pyDedup (src ++ cmp)).insertionSort (fun a b => a ≤ b)

/-- The body of `movie_diff`'s per-frame loop for one frame number
(imagediff.py lines 82-99), as a `Bool` telling whether this frame lets the
loop continue: the two map lookups succeed and are truthy (non-empty
filenames), `image_diff` does not raise, and the result has no `has_diff`.
Each non-OK case makes `movie_diff` return `True` at this frame. -/
def frameOK (t : Target) (sb cb : Name) (srcF cmpF : List Name) (n : Int) : Bool :=
  match frameMapLookup srcF n, frameMapLookup cmpF n with
  | some sf, some cf =>
    if !sf.isEmpty && !cf.isEmpty then
      match image_diff t.px (sb, sf) (cb, cf) with
      | .ok r => !r.getHasDiff
      | .error _ => false
    else false
  | _, _ => false

/-- The `for frame_num in all_frame_numbers` loop of `movie_diff`
(imagediff.py lines 82-99): return `True` at the first frame whose lookup
fails or is falsy, whose comparison raises, or whose result has `has_diff`;
`False` if the whole list passes. -/
def movieDiffLoop (t : Target) (sb cb : Name) (srcF cmpF : List Name) :
    List Int → Bool
  | [] => false
  | n :: rest =>
    match frameMapLookup srcF n, frameMapLookup cmpF n with
    | some sf, some cf =>
      if !sf.isEmpty && !cf.isEmpty then
        match image_diff t.px (sb, sf) (cb, cf) with
        | .ok r => if r.getHasDiff then true else movieDiffLoop t sb cb srcF cmpF rest
        | .error _ => true
      else true
    | _, _ => true

/-- The same loop instrumented with the list of frame numbers for which
`image_diff` was actually invoked, to state the short-circuit property. -/
def movieDiffRun (t : Target) (sb cb : Name) (srcF cmpF : List Name) :
    List Int → Bool × List Int
  | [] => (false, [])
  | n :: rest =>
    match frameMapLookup srcF n, frameMapLookup cmpF n with
    | some sf, some cf =>
      if !sf.isEmpty && !cf.isEmpty then
        match image_diff t.px (sb, sf) (cb, cf) with
        | .ok r =>
          if r.getHasDiff then (true, [n])
          else
            let p := movieDiffRun t sb cb srcF cmpF rest
            (p.1, n :: p.2)
        | .error _ => (true, [n])
      else (true, [])
    | _, _ => (true, [])

/-- `movie_diff` (imagediff.py lines 33-101): `False` if either build path
is missing; `True` if the per-movie file counts differ, or the frame-number
key sets differ, or the frame loop detects a difference (or error). -/
def movie_diff (t : Target) (src_build cmp_build movie : Name) : Bool :=
  if !(t.dirExists src_build) || !(t.dirExists cmp_build) then false
  else
    let srcF := movieFrameFiles t src_build movie
    let cmpF := movieFrameFiles t cmp_build movie
    if srcF.length != cmpF.length then true
    else
      let srcNums := srcF.map get_frame_number
      let cmpNums := cmpF.map get_frame_number
      if !sameSet srcNums cmpNums then true
      else movieDiffLoop t src_build cmp_build srcF cmpF (allFrameNumbers srcNums cmpNums)

/-- One file's contribution to `build_movie_frames[build]` (main.py lines
51-54): append the frame token to the movie's list, creating the key on
first use.  The dict is an association list in insertion order. -/
def addFrame (mf : List (Name × List Name)) (m tok : Name) : List (Name × List Name) :=
  if mf.any (fun p => p.1 == m) then
    mf.map (fun p => if p.1 == m then (p.1, p.2 ++ [tok]) else p)
  else mf ++ [(m, [tok])]

/-- The per-file step of `collect_movie_frames`'s processing loop (main.py
lines 42-55): skip non-files and files without `-`. -/
def fileStep (t : Target) (b : Name) (mf : List (Name × List Name)) (f : Name) :
    List (Name × List Name) :=
  if !(t.isfile b f) then mf
  else if hasSep f then addFrame mf (moviePart f) (frameTok f) else mf

/-- `build_movie_frames[build]` (main.py lines 39-55) built from the build's
directory listing. -/
def buildFrames (t : Target) (b : Name) : List (Name × List Name) :=
  (t.listdir b).foldl (fileStep t b) []

/-- Dict read: `build_movie_frames.get(build, {}).get(movie, [])`.  A key is
present iff its list is non-empty (lists only ever grow from `[tok]`), so
`movie in build_movie_frames[build]` is `mfLookup ... != []`. -/
def mfLookup (mf : List (Name × List Name)) (m : Name) : List Name :=
  match mf.find? (fun p => p.1 == m) with
  | some p => p.2
  | none => []

/-- The frame-token list of one movie in one build, as the Frame Index
stores it: raw string tokens in directory-listing order. -/
def movieTokens (t : Target) (b m : Name) : List Name :=
  mfLookup (buildFrames t b) m

/-- Declarative reading of `movieTokens`, proved equal to it below: the
frame tokens of the build's regular files that contain `-` and whose movie
head is `m`, in listing order. -/
def tokensOf (t : Target) (b m : Name) : List Name :=
  ((t.listdir b).filter
    (fun f => t.isfile b f && hasSep f && moviePart f == m)).map frameTok

/-- The per-file step of the `all_movies` set accumulation (main.py line 55). -/
def movieStep (t : Target) (b : Name) (l : List Name) (f : Name) : List Name :=
  if !(t.isfile b f) then l
  else if hasSep f then pyInsert l (moviePart f) else l

/-- `all_movies` of `collect_movie_frames` (main.py lines 29-57), the Python
set modelled as a first-occurrence-ordered duplicate-free list. -/
def allMoviesOf (t : Target) (bs : List Name) : List Name :=
  bs.foldl (fun l b => (t.listdir b).foldl (movieStep t b) l) []

/-- `get_sorted_builds` (main.py lines 21-25): directory entries of the
target that are directories, sorted by Python string order (descending when
`reverse`).  Python's `sorted` is a stable comparison sort; since `os.listdir`
never repeats an entry, any correct sort gives the same list, and insertion
sort is used here. -/
def get_sorted_builds (t : Target) (reverse : Bool) : List Name :=
  let bs := t.entries.filter t.isdir
  if reverse then bs.insertionSort (fun a b => lexLe b a = true)
  else bs.insertionSort (fun a b => lexLe a b = true)

/-- `builds = get_sorted_builds(target_path)` (main.py line 143), newest
first. -/
def builds (t : Target) : List Name := get_sorted_builds t true

/-- `builds_ascending` (main.py line 144), oldest first. -/
def buildsAscending (t : Target) : List Name := get_sorted_builds t false

/-- `all_movies` as used by `target_data_api` (main.py line 147). -/
def allMovies (t : Target) : List Name := allMoviesOf t (builds t)

/-- `find_first_build_for_movies` (main.py lines 59-67) at one movie: the
first build of the ascending (oldest-first) sequence whose frame dict has
the movie. -/
def first_build_for_movie (t : Target) (m : Name) : Option Name :=
  (buildsAscending t).find? (fun b => !(movieTokens t b m).isEmpty)

/-- `reference_data` entries of the `movie_reference_builds` dict. -/
structure RefData where
  build : Option Name
  frames : List Name
deriving DecidableEq, Repr

/-- Python `list(set(xs).intersection(set(ys)))`: the common elements,
duplicate-free; the Python set-iteration order is modelled as the order of
first occurrence in `xs` (no claim depends on the order of this list). -/
def pySetInter (xs ys : List Name) : List Name :=
  (pyDedup xs).filter (fun x => ys.contains x)

/-- The inline reference-build calculation of `target_data_api` (main.py
lines 154-194) for one movie and the build at index `i` of the descending
sequence.  If the current build lacks the movie, scan strictly older builds
for the first that has it.  If it has the movie, scan strictly older builds
for the first that has it *with a non-empty frame intersection* (builds with
the movie but disjoint frames are passed over); the default keeps
`build = None` and the current frames.  Modelled as a function of the index;
this is the dict keyed by build name whenever build names are distinct. -/
def movie_reference_builds (t : Target) (m : Name) (i : Nat) (current : Name) :
    RefData :=
  let currentFrames := movieTokens t current m
  if currentFrames.isEmpty then
    { build := ((builds t).drop (i + 1)).find? (fun b => !(movieTokens t b m).isEmpty)
      frames := [] }
  else
    match ((builds t).drop (i + 1)).find?
        (fun b => !(movieTokens t b m).isEmpty
          && !(pySetInter currentFrames (movieTokens t b m)).isEmpty) with
    | some b => { build := some b, frames := pySetInter currentFrames (movieTokens t b m) }
    | none => { build := none, frames := currentFrames }

/-- `f"{movie}-{frame}.png"` (main.py lines 201-202). -/
def frameFileName (m fr : Name) : Name := m ++ '-' :: fr ++ ['.', 'p', 'n', 'g']

/-- `get_image_diff` (main.py lines 198-213), result value: if either frame
path is missing, `{'has_diff': True}`; if `image_diff` raises,
`{'has_diff': True}`; otherwise whatever dict `image_diff` returned (which
is `{}` when it caught an `IOError`).  The memoization cache never changes
this value (it caches a deterministic computation; see `DiffState` below for
the cache itself), so the per-entry results of the continuity loop use this
pure form. -/
def get_image_diff (t : Target) (cur prev m fr : Name) : ImgDiffResult :=
  let fn := frameFileName m fr
  if t.fexists cur fn && t.fexists prev fn then
    match image_diff t.px (cur, fn) (prev, fn) with
    | .ok r => r
    | .error _ => .dict true
  else .dict true

/-- `get_movie_diff_for_frames` (main.py lines 216-227): empty frame list
gives `False`; otherwise `True` iff some listed frame's `get_image_diff` has
`has_diff` (the loop breaks at the first, which `List.any` reproduces). -/
def get_movie_diff_for_frames (t : Target) (cur ref m : Name) (frames : List Name) :
    Bool :=
  frames.any (fun fr => (get_image_diff t cur ref m fr).getHasDiff)

/-- The `type` field of a continuity entry. -/
inductive EntryType
  | first | diff | missing | readded | unknown
deriving DecidableEq, Repr

/-- One element of `continuous_bars[movie]` (main.py lines 258-333).  The
Python dicts carry different key sets per branch; keys a branch does not set
are modelled by the defaults (`none`, `false`, `[]`).  `isSkipped`,
`isPartial`, `noReference` and `commonFrames` stand for the Python keys
`is_skipped`, `is_partial`, `no_reference` and `common_frames`. -/
structure Entry where
  build : Name
  type : EntryType
  reference_build : Option Name := none
  has_diff : Option Bool := none
  isSkipped : Bool := false
  compare_with : Option Name := none
  isPartial : Bool := false
  commonFrames : List Name := []
  noReference : Bool := false
deriving DecidableEq, Repr

/-- The body of the continuity loop (main.py lines 244-333) for one movie
and the build at index `i`.  `prev_build` is `builds[i+1]` when it exists;
Python's truthiness of `prev_build` (`None` and `""` are falsy) is modelled
explicitly.  The `elif` chain is exhaustive: when `prev_build` is truthy one
of the two middle branches fires, otherwise the last one does. -/
def entryFor (t : Target) (m : Name) (i : Nat) (current : Name) : Entry :=
  if first_build_for_movie t m = some current then
    { build := current, type := .first }
  else
    match (builds t)[i + 1]? with
    | some prev =>
      if prev.isEmpty then { build := current, type := .unknown }
      else if (movieTokens t current m).isEmpty then
        match (movie_reference_builds t m i current).build with
        | some r =>
          { build := current, reference_build := some r, type := .diff,
            has_diff := some false, isSkipped := true, compare_with := some r }
        | none => { build := current, type := .missing }
      else if !(movieTokens t prev m).isEmpty then
        if (movieTokens t current m).length < (movieTokens t prev m).length then
          { build := current,
            has_diff := some ((pySetInter (movieTokens t current m) (movieTokens t prev m)).any
              (fun fr => (get_image_diff t current prev m fr).getHasDiff)),
            compare_with := some prev, type := .diff, isPartial := true }
        else
          { build := current, has_diff := some (movie_diff t current prev m),
            compare_with := some prev, type := .diff }
      else
        { build := current, type := .readded,
          compare_with := (movie_reference_builds t m i current).build,
          commonFrames := (movie_reference_builds t m i current).frames,
          has_diff := some (match (movie_reference_builds t m i current).build with
            | some r =>
              if !(movie_reference_builds t m i current).frames.isEmpty then
                get_movie_diff_for_frames t current r m (movie_reference_builds t m i current).frames
              else false
            | none => false),
          noReference := (movie_reference_builds t m i current).build.isNone }
    | none => { build := current, type := .unknown }

/-- `continuous_bars[movie]` (main.py lines 241-333): one entry per build of
the descending sequence, in order.  `get_movie_diff_cached` is `movie_diff`
behind a memoization dict; the cached value of a deterministic computation
equals the computation, so `movie_diff` appears directly. -/
def continuousBars (t : Target) (m : Name) : List Entry :=
  (builds t).enum.map (fun p => entryFor t m p.1 p.2)

/-- Key of the `image_diff_cache` dict (main.py line 199):
`(current_build, prev_build, movie, frame)`. -/
abbrev DiffKey := Name × Name × Name × Name

/-- The `image_diff_cache` of one `target_data_api` pass, together with a
count of the `image_diff` invocations made through it (the claim about
memoization is a claim about this count). -/
structure DiffState where
  cache : List (DiffKey × ImgDiffResult)
  pixelCalls : Nat

/-- Dict membership/read of the cache. -/
def lookupCache (c : List (DiffKey × ImgDiffResult)) (k : DiffKey) :
    Option ImgDiffResult :=
  (c.find? (fun p => p.1 == k)).map (fun p => p.2)

/-- `get_image_diff` (main.py lines 198-213) with its cache explicit: on a
hit, return the cached dict and touch nothing; on a miss, resolve the two
paths, invoke `image_diff` only when both exist (counting that invocation),
store the result (or the conservative `{'has_diff': True}`), and return it. -/
def get_image_diff_st (t : Target) (k : DiffKey) (st : DiffState) :
    ImgDiffResult × DiffState :=
  match lookupCache st.cache k with
  | some r => (r, st)
  | none =>
    match k with
    | (cur, prev, m, fr) =>
      let fn := frameFileName m fr
      if t.fexists cur fn && t.fexists prev fn then
        match image_diff t.px (cur, fn) (prev, fn) with
        | .ok r => (r, ⟨st.cache ++ [(k, r)], st.pixelCalls + 1⟩)
        | .error _ => (.dict true, ⟨st.cache ++ [(k, .dict true)], st.pixelCalls + 1⟩)
      else (.dict true, ⟨st.cache ++ [(k, .dict true)], st.pixelCalls⟩)

/-! ### Concrete filesystems used to evaluate the claims -/

/-- The end-to-end scenario of the specification: builds `3`, `2`, `1`
(descending), movie `intro` present with frames 1,2 in builds `3` and `1`,
absent in build `2`; all pixel comparisons succeed and report no
difference. -/
def sampleTarget : Target where
  entries := ["3".data, "2".data, "1".data]
  isdir := fun _ => true
  dirExists := fun b => ["3".data, "2".data, "1".data].contains b
  listdir := fun b =>
    if b == "3".data || b == "1".data then ["intro-1.png".data, "intro-2.png".data]
    else []
  isfile := fun _ _ => true
  fexists := fun b f =>
    (b == "3".data || b == "1".data) && ["intro-1.png".data, "intro-2.png".data].contains f
  px := fun _ _ => .ok false

/-- A filesystem on which every frame path exists but every PIL open/compare
fails with `IOError` (for instance, truncated image files). -/
def ioTarget : Target where
  entries := []
  isdir := fun _ => false
  dirExists := fun _ => true
  listdir := fun _ => []
  isfile := fun _ _ => false
  fexists := fun _ _ => true
  px := fun _ _ => .ioError

/-- Two builds `a`, `b`, each holding the single frame file `m-1.png`, whose
pixel comparison reports a difference. -/
def pairTarget : Target where
  entries := ["a".data, "b".data]
  isdir := fun _ => true
  dirExists := fun b => b == "a".data || b == "b".data
  listdir := fun b => if b == "a".data || b == "b".data then ["m-1.png".data] else []
  isfile := fun _ _ => true
  fexists := fun _ _ => true
  px := fun _ _ => .ok true

/-- Builds `2` (newer, frames {1}) and `1` (older, frames {1,2}) of movie
`m`: a shrinking frame set; pixel comparisons report no difference. -/
def shrinkTarget : Target where
  entries := ["2".data, "1".data]
  isdir := fun _ => true
  dirExists := fun _ => true
  listdir := fun b =>
    if b == "1".data then ["m-1.png".data, "m-2.png".data]
    else if b == "2".data then ["m-1.png".data] else []
  isfile := fun _ _ => true
  fexists := fun b f =>
    if b == "1".data then ["m-1.png".data, "m-2.png".data].contains f
    else if b == "2".data then ["m-1.png".data].contains f else false
  px := fun _ _ => .ok false

/-- One build `b` listing `m-2.png` before `m-1.png` (directory listings are
not sorted). -/
def unsortedTarget : Target where
  entries := ["b".data]
  isdir := fun _ => true
  dirExists := fun _ => true
  listdir := fun b => if b == "b".data then ["m-2.png".data, "m-1.png".data] else []
  isfile := fun _ _ => true
  fexists := fun _ _ => false
  px := fun _ _ => .ok false

/-! ### Basic facts about the code-point order on names -/

theorem lexLe_refl (a : Name) : lexLe a a = true := by
  induction a with
  | nil => rfl
  | cons c cs ih => simp [lexLe, ih]

theorem lexLe_total (a : Name) : ∀ b, lexLe a b = true ∨ lexLe b a = true := by
  induction a with
  | nil => intro b; left; rfl
  | cons c cs ih =>
    intro b
    cases b with
    | nil => right; rfl
    | cons d ds =>
      by_cases h : c = d
      · subst h
        rcases ih ds with h1 | h1
        · left; simpa [lexLe] using h1
        · right; simpa [lexLe] using h1
      · rcases lt_or_gt_of_ne h with hlt | hgt
        · left; simp [lexLe, h, hlt]
        · right; simp [lexLe, Ne.symm h, hgt]

theorem lexLe_trans (a : Name) :
    ∀ b c, lexLe a b = true → lexLe b c = true → lexLe a c = true := by
  induction a with
  | nil => intro b c _ _; rfl
  | cons x xs ih =>
    intro b c h1 h2
    cases b with
    | nil => simp [lexLe] at h1
    | cons y ys =>
      cases c with
      | nil => simp [lexLe] at h2
      | cons z zs =>
        simp only [lexLe] at h1 h2 ⊢
        by_cases hxy : x = y
        · subst hxy
          simp only [if_pos rfl] at h1
          by_cases hxz : x = z
          · subst hxz
            simp only [if_pos rfl] at h2 ⊢
            exact ih ys zs h1 h2
          · simpa [hxz] using h2
        · simp only [if_neg hxy] at h1
          have hxy' : x < y := of_decide_eq_true h1
          by_cases hyz : y = z
          · subst hyz
            simp [hxy, hxy']
          · have hyz' : y < z := of_decide_eq_true (by simpa [hyz] using h2)
            have hxz' : x < z := lt_trans hxy' hyz'
            simp [ne_of_lt hxz', hxz']

theorem lexLt_iff (a : Name) : ∀ b, lexLt a b = true ↔ (lexLe a b = true ∧ a ≠ b) := by
  induction a with
  | nil =>
    intro b
    cases b with
    | nil => simp [lexLt, lexLe]
    | cons d ds => simp [lexLt, lexLe]
  | cons c cs ih =>
    intro b
    cases b with
    | nil => simp [lexLt, lexLe]
    | cons d ds =>
      by_cases h : c = d
      · subst h
        simpa [lexLt, lexLe] using ih ds
      · simp [lexLt, lexLe, h]

instance : IsTotal Name (fun a b => lexLe a b = true) := ⟨fun a b => lexLe_total a b⟩

instance : IsTrans Name (fun a b => lexLe a b = true) :=
  ⟨fun a b c h1 h2 => lexLe_trans a b c h1 h2⟩

instance : IsTotal Name (fun a b => lexLe b a = true) :=
  ⟨fun a b => (lexLe_total a b).symm⟩

instance : IsTrans Name (fun a b => lexLe b a = true) :=
  ⟨fun a b c h1 h2 => lexLe_trans c b a h2 h1⟩

/-! ### The build sequences: sortedness, permutation, distinctness -/

theorem builds_sorted (t : Target) :
    List.Pairwise (fun a b => lexLe b a = true) (builds t) :=
  List.sorted_insertionSort _ _

theorem buildsAscending_sorted (t : Target) :
    List.Pairwise (fun a b => lexLe a b = true) (buildsAscending t) :=
  List.sorted_insertionSort _ _

theorem builds_perm (t : Target) : (builds t).Perm (t.entries.filter t.isdir) :=
  List.perm_insertionSort _ _

theorem buildsAscending_perm (t : Target) :
    (buildsAscending t).Perm (t.entries.filter t.isdir) :=
  List.perm_insertionSort _ _

theorem builds_perm_ascending (t : Target) : (builds t).Perm (buildsAscending t) :=
  (builds_perm t).trans (buildsAscending_perm t).symm

theorem builds_nodup (t : Target) (h : t.entries.Nodup) : (builds t).Nodup :=
  ((builds_perm t).nodup_iff).mpr (h.filter _)

theorem builds_pairwise_gt (t : Target) (h : t.entries.Nodup) :
    List.Pairwise (fun a b => lexLt b a = true) (builds t) := by
  have hs := (builds_sorted t).and (builds_nodup t h)
  exact hs.imp (fun hab => (lexLt_iff _ _).mpr ⟨hab.1, fun he => hab.2 he.symm⟩)

/-! ### Set/dict accumulation facts -/

theorem contains_iff_mem {α : Type} [BEq α] [LawfulBEq α] (l : List α) (a : α) :
    l.contains a = true ↔ a ∈ l :=
  List.elem_iff

theorem mem_pyInsert {α : Type} [BEq α] [LawfulBEq α] (acc : List α) (x a : α) :
    a ∈ pyInsert acc x ↔ a ∈ acc ∨ a = x := by
  unfold pyInsert
  by_cases h : acc.contains x = true
  · rw [if_pos h]
    have hx : x ∈ acc := (contains_iff_mem acc x).mp h
    constructor
    · exact fun ha => Or.inl ha
    · rintro (ha | rfl)
      · exact ha
      · exact hx
  · rw [if_neg h]
    simp

theorem mem_foldl_pyInsert {α : Type} [BEq α] [LawfulBEq α] (l : List α) :
    ∀ (acc : List α) (a : α), a ∈ l.foldl pyInsert acc ↔ a ∈ acc ∨ a ∈ l := by
  induction l with
  | nil => intro acc a; simp
  | cons x xs ih =>
    intro acc a
    rw [List.foldl_cons, ih, mem_pyInsert]
    constructor
    · rintro ((h | rfl) | h)
      · exact Or.inl h
      · exact Or.inr (List.mem_cons_self _ _)
      · exact Or.inr (List.mem_cons_of_mem _ h)
    · rintro (h | h)
      · exact Or.inl (Or.inl h)
      · rcases List.mem_cons.mp h with rfl | h
        · exact Or.inl (Or.inr rfl)
        · exact Or.inr h

theorem nodup_pyInsert {α : Type} [BEq α] [LawfulBEq α] (acc : List α) (x : α)
    (h : acc.Nodup) : (pyInsert acc x).Nodup := by
  unfold pyInsert
  by_cases hc : acc.contains x = true
  · rwa [if_pos hc]
  · rw [if_neg hc]
    refine List.nodup_append.mpr ⟨h, List.nodup_singleton x, ?_⟩
    intro a ha hax
    rcases List.mem_singleton.mp hax with rfl
    exact hc ((contains_iff_mem acc a).mpr ha)

theorem nodup_foldl_pyInsert {α : Type} [BEq α] [LawfulBEq α] (l : List α) :
    ∀ acc : List α, acc.Nodup → (l.foldl pyInsert acc).Nodup := by
  induction l with
  | nil => intro acc h; simpa using h
  | cons x xs ih =>
    intro acc h
    rw [List.foldl_cons]
    exact ih _ (nodup_pyInsert acc x h)

theorem mem_pyDedup {α : Type} [BEq α] [LawfulBEq α] (l : List α) (a : α) :
    a ∈ pyDedup l ↔ a ∈ l := by
  unfold pyDedup
  rw [mem_foldl_pyInsert]
  simp

theorem nodup_pyDedup {α : Type} [BEq α] [LawfulBEq α] (l : List α) :
    (pyDedup l).Nodup :=
  nodup_foldl_pyInsert l [] List.nodup_nil

theorem mem_pySetInter (xs ys : List Name) (x : Name) :
    x ∈ pySetInter xs ys ↔ x ∈ xs ∧ x ∈ ys := by
  unfold pySetInter
  rw [List.mem_filter, mem_pyDedup, contains_iff_mem]

theorem pySetInter_isEmpty (xs ys : List Name) :
    (pySetInter xs ys).isEmpty = true ↔ ∀ x ∈ xs, x ∉ ys := by
  rw [List.isEmpty_iff, List.eq_nil_iff_forall_not_mem]
  constructor
  · intro h x hx hy
    exact h x ((mem_pySetInter xs ys x).mpr ⟨hx, hy⟩)
  · intro h x hx
    rcases (mem_pySetInter xs ys x).mp hx with ⟨h1, h2⟩
    exact h x h1 h2

/-! ### The frame index: loop-to-declarative characterization -/

theorem find?_split {α : Type} {p : α → Bool} :
    ∀ {l : List α} {a : α}, l.find? p = some a →
      ∃ l1 l2, l = l1 ++ a :: l2 ∧ (∀ x ∈ l1, p x = false) ∧ p a = true := by
  intro l
  induction l with
  | nil => intro a h; simp [List.find?] at h
  | cons x xs ih =>
    intro a h
    by_cases hx : p x = true
    · rw [List.find?_cons_of_pos _ hx] at h
      rcases Option.some.inj h with rfl
      exact ⟨[], xs, rfl, by simp, hx⟩
    · rw [List.find?_cons_of_neg _ (by simpa using hx)] at h
      rcases ih h with ⟨l1, l2, rfl, h1, h2⟩
      exact ⟨x :: l1, l2, rfl, by
        intro y hy
        rcases List.mem_cons.mp hy with rfl | hy
        · simpa using hx
        · exact h1 y hy, h2⟩

theorem mfLookup_addFrame (mf : List (Name × List Name)) (m mk tok : Name) :
    mfLookup (addFrame mf mk tok) m =
      if mk = m then mfLookup mf m ++ [tok] else mfLookup mf m := by
  unfold addFrame mfLookup
  by_cases hany : mf.any (fun p => p.1 == mk) = true
  · rw [if_pos hany]
    rw [List.find?_map]
    have hpred : ((fun p : Name × List Name => p.1 == m) ∘
        (fun p : Name × List Name => if p.1 == mk then (p.1, p.2 ++ [tok]) else p))
        = (fun p : Name × List Name => p.1 == m) := by
      funext p
      by_cases h : p.1 == mk
      · simp [Function.comp, h]
      · simp [Function.comp, h]
    rw [hpred]
    rcases hfind : mf.find? (fun p => p.1 == m) with _ | e
    · by_cases hmk : mk = m
      · subst hmk
        rcases List.any_eq_true.mp hany with ⟨e, he, hpe⟩
        have hnone := List.find?_eq_none.mp hfind e he
        exact absurd hpe hnone
      · simp [hfind]
        exact hmk
    · have he1 : e.1 = m := by simpa using List.find?_some hfind
      by_cases hmk : mk = m
      · subst hmk
        simp [hfind, he1]
      · have hne : e.1 ≠ mk := by
          rw [he1]
          exact fun h => hmk h.symm
        simp [hfind, hne, hmk]
  · rw [if_neg hany]
    rw [List.find?_append]
    have hnone : mf.find? (fun p => p.1 == m) = none ∨ mk ≠ m := by
      by_cases hmk : mk = m
      · subst hmk
        left
        rw [List.find?_eq_none]
        intro p hp hpm
        exact hany (List.any_eq_true.mpr ⟨p, hp, hpm⟩)
      · right; exact hmk
    by_cases hmk : mk = m
    · subst hmk
      rcases hnone with hnone | hne
      · simp [hnone]
      · exact absurd rfl hne
    · have : ((mk, [tok]).1 == m) = false := by
        simp
        exact hmk
      rcases hfind : mf.find? (fun p => p.1 == m) with _ | e
      · simp [List.find?, this, hmk]
      · simp [List.find?, this, hmk]

theorem mfLookup_foldl_fileStep (t : Target) (b : Name) (files : List Name) :
    ∀ (mf : List (Name × List Name)) (m : Name),
      mfLookup (files.foldl (fileStep t b) mf) m =
        mfLookup mf m ++
          (files.filter (fun f => t.isfile b f && hasSep f && moviePart f == m)).map frameTok := by
  induction files with
  | nil => intro mf m; simp
  | cons f fs ih =>
    intro mf m
    rw [List.foldl_cons]
    by_cases h1 : t.isfile b f = true
    · by_cases h2 : hasSep f = true
      · have hstep : fileStep t b mf f = addFrame mf (moviePart f) (frameTok f) := by
          simp [fileStep, h1, h2]
        rw [hstep, ih, mfLookup_addFrame]
        by_cases h3 : moviePart f = m
        · rw [if_pos h3]
          rw [List.filter_cons_of_pos (by simp [h1, h2, h3]), List.map_cons,
            List.append_assoc]
          rfl
        · rw [if_neg h3]
          rw [List.filter_cons_of_neg (by simp [h1, h2, h3])]
      · have hstep : fileStep t b mf f = mf := by simp [fileStep, h1, h2]
        rw [hstep, ih, List.filter_cons_of_neg (by simp [h1, h2])]
    · have hstep : fileStep t b mf f = mf := by simp [fileStep, h1]
      rw [hstep, ih, List.filter_cons_of_neg (by simp [h1])]

/-- The Frame Index, declaratively: the stored token list of `(build, movie)`
is exactly the frame tokens of the build's regular `-`-separated files whose
movie head is `movie`, in directory-listing order. -/
theorem movieTokens_eq_tokensOf (t : Target) (b m : Name) :
    movieTokens t b m = tokensOf t b m := by
  unfold movieTokens buildFrames tokensOf
  rw [mfLookup_foldl_fileStep]
  rfl

theorem tokensOf_ne_nil_iff (t : Target) (b m : Name) :
    tokensOf t b m ≠ [] ↔
      ∃ f ∈ t.listdir b, t.isfile b f = true ∧ hasSep f = true ∧ moviePart f = m := by
  unfold tokensOf
  rw [Ne, List.map_eq_nil_iff, List.filter_eq_nil_iff]
  push_neg
  constructor
  · rintro ⟨f, hf, hp⟩
    refine ⟨f, hf, ?_⟩
    simpa [and_assoc] using hp
  · rintro ⟨f, hf, hp⟩
    refine ⟨f, hf, ?_⟩
    simpa [and_assoc] using hp

theorem mem_foldl_movieStep (t : Target) (b : Name) (files : List Name) :
    ∀ (l : List Name) (m : Name),
      m ∈ files.foldl (movieStep t b) l ↔
        m ∈ l ∨ ∃ f ∈ files, t.isfile b f = true ∧ hasSep f = true ∧ moviePart f = m := by
  induction files with
  | nil => intro l m; simp
  | cons f fs ih =>
    intro l m
    rw [List.foldl_cons, ih]
    by_cases h1 : t.isfile b f = true
    · by_cases h2 : hasSep f = true
      · have hstep : movieStep t b l f = pyInsert l (moviePart f) := by
          simp [movieStep, h1, h2]
        rw [hstep, mem_pyInsert]
        constructor
        · rintro ((h | h) | h)
          · exact Or.inl h
          · exact Or.inr ⟨f, List.mem_cons_self _ _, h1, h2, h.symm⟩
          · rcases h with ⟨g, hg, hp⟩
            exact Or.inr ⟨g, List.mem_cons_of_mem _ hg, hp⟩
        · rintro (h | h)
          · exact Or.inl (Or.inl h)
          · rcases h with ⟨g, hg, hgf, hgs, hgm⟩
            rcases List.mem_cons.mp hg with rfl | hg
            · exact Or.inl (Or.inr hgm.symm)
            · exact Or.inr ⟨g, hg, hgf, hgs, hgm⟩
      · have hstep : movieStep t b l f = l := by simp [movieStep, h1, h2]
        rw [hstep]
        constructor
        · rintro (h | ⟨g, hg, hp⟩)
          · exact Or.inl h
          · exact Or.inr ⟨g, List.mem_cons_of_mem _ hg, hp⟩
        · rintro (h | ⟨g, hg, hgf, hgs, hgm⟩)
          · exact Or.inl h
          · rcases List.mem_cons.mp hg with rfl | hg
            · exact absurd hgs h2
            · exact Or.inr ⟨g, hg, hgf, hgs, hgm⟩
    · have hstep : movieStep t b l f = l := by simp [movieStep, h1]
      rw [hstep]
      constructor
      · rintro (h | ⟨g, hg, hp⟩)
        · exact Or.inl h
        · exact Or.inr ⟨g, List.mem_cons_of_mem _ hg, hp⟩
      · rintro (h | ⟨g, hg, hgf, hgs, hgm⟩)
        · exact Or.inl h
        · rcases List.mem_cons.mp hg with rfl | hg
          · exact absurd hgf h1
          · exact Or.inr ⟨g, hg, hgf, hgs, hgm⟩

/-- `all_movies`, declaratively: a movie is collected iff some listed build
has a frame file for it, i.e. iff its token list somewhere is non-empty. -/
theorem mem_allMoviesOf (t : Target) (bs : List Name) (m : Name) :
    m ∈ allMoviesOf t bs ↔ ∃ b ∈ bs, movieTokens t b m ≠ [] := by
  unfold allMoviesOf
  have main : ∀ (l : List Name),
      m ∈ bs.foldl (fun l b => (t.listdir b).foldl (movieStep t b) l) l ↔
        m ∈ l ∨ ∃ b ∈ bs, movieTokens t b m ≠ [] := by
    induction bs with
    | nil => intro l; simp
    | cons b bs ih =>
      intro l
      rw [List.foldl_cons, ih, mem_foldl_movieStep]
      have hb : (∃ f ∈ t.listdir b, t.isfile b f = true ∧ hasSep f = true ∧ moviePart f = m)
          ↔ movieTokens t b m ≠ [] := by
        rw [movieTokens_eq_tokensOf]
        exact (tokensOf_ne_nil_iff t b m).symm
      rw [hb]
      constructor
      · rintro ((h | h) | ⟨g, hg, hp⟩)
        · exact Or.inl h
        · exact Or.inr ⟨b, List.mem_cons_self _ _, h⟩
        · exact Or.inr ⟨g, List.mem_cons_of_mem _ hg, hp⟩
      · rintro (h | ⟨g, hg, hp⟩)
        · exact Or.inl (Or.inl h)
        · rcases List.mem_cons.mp hg with rfl | hg
          · exact Or.inl (Or.inr hp)
          · exact Or.inr ⟨g, hg, hp⟩
  rw [main]
  simp

theorem mem_allMovies (t : Target) (m : Name) :
    m ∈ allMovies t ↔ ∃ b ∈ builds t, movieTokens t b m ≠ [] :=
  mem_allMoviesOf t (builds t) m

/-! ### The `movie_diff` frame loop -/

theorem movieDiffLoop_eq_any (t : Target) (sb cb : Name) (srcF cmpF : List Name) :
    ∀ l : List Int, movieDiffLoop t sb cb srcF cmpF l
      = l.any (fun n => !frameOK t sb cb srcF cmpF n) := by
  intro l
  induction l with
  | nil => rfl
  | cons n rest ih =>
    rw [List.any_cons]
    cases hs : frameMapLookup srcF n with
    | none => simp [movieDiffLoop, frameOK, hs]
    | some sf =>
      cases hc : frameMapLookup cmpF n with
      | none => simp [movieDiffLoop, frameOK, hs, hc]
      | some cf =>
        by_cases hne : (!sf.isEmpty && !cf.isEmpty) = true
        · cases hres : image_diff t.px (sb, sf) (cb, cf) with
          | ok r =>
            by_cases hd : r.getHasDiff = true
            · simp [movieDiffLoop, frameOK, hs, hc, hne, hres, hd]
            · simp [movieDiffLoop, frameOK, hs, hc, hne, hres, hd, ih]
          | error e => simp [movieDiffLoop, frameOK, hs, hc, hne, hres]
        · simp [movieDiffLoop, frameOK, hs, hc, hne]

theorem movieDiffRun_fst (t : Target) (sb cb : Name) (srcF cmpF : List Name) :
    ∀ l : List Int, (movieDiffRun t sb cb srcF cmpF l).1
      = movieDiffLoop t sb cb srcF cmpF l := by
  intro l
  induction l with
  | nil => rfl
  | cons n rest ih =>
    cases hs : frameMapLookup srcF n with
    | none => simp [movieDiffRun, movieDiffLoop, hs]
    | some sf =>
      cases hc : frameMapLookup cmpF n with
      | none => simp [movieDiffRun, movieDiffLoop, hs, hc]
      | some cf =>
        by_cases hne : (!sf.isEmpty && !cf.isEmpty) = true
        · cases hres : image_diff t.px (sb, sf) (cb, cf) with
          | ok r =>
            by_cases hd : r.getHasDiff = true
            · simp [movieDiffRun, movieDiffLoop, hs, hc, hne, hres, hd]
            · simp [movieDiffRun, movieDiffLoop, hs, hc, hne, hres, hd, ih]
          | error e => simp [movieDiffRun, movieDiffLoop, hs, hc, hne, hres]
        · simp [movieDiffRun, movieDiffLoop, hs, hc, hne]

/-- Short-circuiting of the frame loop: whenever `image_diff` was invoked on
frame `n`, every smaller frame number of the (strictly increasing) list
passed its check — nothing is compared past the first detected problem. -/
theorem movieDiffRun_compared_ok_below (t : Target) (sb cb : Name)
    (srcF cmpF : List Name) :
    ∀ l : List Int, l.Pairwise (fun a b => a < b) →
      ∀ n ∈ (movieDiffRun t sb cb srcF cmpF l).2,
        ∀ k ∈ l, k < n → frameOK t sb cb srcF cmpF k = true := by
  intro l
  induction l with
  | nil => intro _ n hn; simp [movieDiffRun] at hn
  | cons c rest ih =>
    intro hp n hn k hk hkn
    rcases List.pairwise_cons.mp hp with ⟨hhead, htail⟩
    have hkcases := List.mem_cons.mp hk
    cases hs : frameMapLookup srcF c with
    | none =>
      rw [show movieDiffRun t sb cb srcF cmpF (c :: rest)
          = (true, []) by simp [movieDiffRun, hs]] at hn
      simp at hn
    | some sf =>
      cases hc : frameMapLookup cmpF c with
      | none =>
        rw [show movieDiffRun t sb cb srcF cmpF (c :: rest)
            = (true, []) by simp [movieDiffRun, hs, hc]] at hn
        simp at hn
      | some cf =>
        by_cases hne : (!sf.isEmpty && !cf.isEmpty) = true
        · cases hres : image_diff t.px (sb, sf) (cb, cf) with
          | ok r =>
            by_cases hd : r.getHasDiff = true
            · rw [show movieDiffRun t sb cb srcF cmpF (c :: rest)
                  = (true, [c]) by simp [movieDiffRun, hs, hc, hne, hres, hd]] at hn
              rcases List.mem_singleton.mp hn with rfl
              rcases hkcases with rfl | hkr
              · exact absurd hkn (lt_irrefl k)
              · exact absurd hkn (not_lt_of_gt (hhead k hkr))
            · have hok : frameOK t sb cb srcF cmpF c = true := by
                simp [frameOK, hs, hc, hne, hres, hd]
              rw [show movieDiffRun t sb cb srcF cmpF (c :: rest)
                  = ((movieDiffRun t sb cb srcF cmpF rest).1,
                     c :: (movieDiffRun t sb cb srcF cmpF rest).2) by
                simp [movieDiffRun, hs, hc, hne, hres, hd]] at hn
              rcases List.mem_cons.mp hn with rfl | hnr
              · rcases hkcases with rfl | hkr
                · exact absurd hkn (lt_irrefl k)
                · exact absurd hkn (not_lt_of_gt (hhead k hkr))
              · rcases hkcases with rfl | hkr
                · exact hok
                · exact ih htail n hnr k hkr hkn
          | error e =>
            rw [show movieDiffRun t sb cb srcF cmpF (c :: rest)
                = (true, [c]) by simp [movieDiffRun, hs, hc, hne, hres]] at hn
            rcases List.mem_singleton.mp hn with rfl
            rcases hkcases with rfl | hkr
            · exact absurd hkn (lt_irrefl k)
            · exact absurd hkn (not_lt_of_gt (hhead k hkr))
        · rw [show movieDiffRun t sb cb srcF cmpF (c :: rest)
              = (true, []) by simp [movieDiffRun, hs, hc, hne]] at hn
          simp at hn

theorem allFrameNumbers_pairwise_lt (src cmp : List Int) :
    (allFrameNumbers src cmp).Pairwise (fun a b => a < b) := by
  have hs : List.Pairwise (fun a b : Int => a ≤ b) (allFrameNumbers src cmp) :=
    List.sorted_insertionSort _ _
  have hn : (allFrameNumbers src cmp).Nodup :=
    ((List.perm_insertionSort _ _).nodup_iff).mpr (nodup_pyDedup _)
  exact (hs.and hn).imp (fun h => lt_of_le_of_ne h.1 h.2)

theorem mem_allFrameNumbers (src cmp : List Int) (n : Int) :
    n ∈ allFrameNumbers src cmp ↔ n ∈ src ∨ n ∈ cmp := by
  unfold allFrameNumbers
  rw [(List.perm_insertionSort _ _).mem_iff, mem_pyDedup, List.mem_append]

/-! ### Index access into the continuity bars -/

theorem continuousBars_getElem? (t : Target) (m : Name) (i : Nat) :
    (continuousBars t m)[i]? = ((builds t)[i]?).map (fun cur => entryFor t m i cur) := by
  unfold continuousBars
  rw [List.getElem?_map, List.getElem?_enum]
  cases (builds t)[i]? <;> rfl

theorem mem_continuousBars (t : Target) (m : Name) {e : Entry}
    (he : e ∈ continuousBars t m) :
    ∃ i cur, (builds t)[i]? = some cur ∧ e = entryFor t m i cur := by
  rcases List.mem_iff_get?.mp he with ⟨i, hi⟩
  rw [List.get?_eq_getElem?, continuousBars_getElem?] at hi
  cases hb : (builds t)[i]? with
  | none => rw [hb] at hi; simp at hi
  | some cur =>
    rw [hb] at hi
    exact ⟨i, cur, hb, by simpa using hi.symm⟩

theorem mem_of_getElem?_eq_some {α : Type} {l : List α} {i : Nat} {a : α}
    (h : l[i]? = some a) : a ∈ l := by
  rw [← List.get?_eq_getElem?] at h
  exact List.get?_mem h

/-- An element of the descending build list that sits strictly past index `i`
is strictly older (code-point smaller) than the build at index `i`, provided
the directory entries are distinct. -/
theorem lt_of_mem_drop_builds (t : Target) (h : t.entries.Nodup) {i : Nat}
    {cur b : Name} (hc : (builds t)[i]? = some cur)
    (hb : b ∈ (builds t).drop (i + 1)) : lexLt b cur = true := by
  have hp := builds_pairwise_gt t h
  have hcur : cur ∈ (builds t).take (i + 1) := by
    apply mem_of_getElem?_eq_some (i := i)
    rw [List.getElem?_take, if_pos (Nat.lt_succ_self i)]
    exact hc
  rw [← List.take_append_drop (i + 1) (builds t)] at hp
  rcases List.pairwise_append.mp hp with ⟨_, _, hcross⟩
  exact hcross cur hcur b hb

theorem lexLe_antisymm (a : Name) :
    ∀ b, lexLe a b = true → lexLe b a = true → a = b := by
  induction a with
  | nil =>
    intro b h1 h2
    cases b with
    | nil => rfl
    | cons d ds => simp [lexLe] at h2
  | cons c cs ih =>
    intro b h1 h2
    cases b with
    | nil => simp [lexLe] at h1
    | cons d ds =>
      by_cases h : c = d
      · subst h
        simp only [lexLe, if_pos rfl] at h1 h2
        rw [ih ds h1 h2]
      · simp only [lexLe, if_neg h, if_neg (Ne.symm h)] at h1 h2
        exact absurd (lt_trans (of_decide_eq_true h1) (of_decide_eq_true h2))
          (lt_irrefl c)

theorem lexLt_irrefl_false {a : Name} (h : lexLt a a = true) : False := by
  rcases (lexLt_iff a a).mp h with ⟨_, hne⟩
  exact hne rfl

theorem lexLt_asymm {a b : Name} (h1 : lexLt a b = true) (h2 : lexLt b a = true) :
    False := by
  rcases (lexLt_iff a b).mp h1 with ⟨hle1, hne⟩
  rcases (lexLt_iff b a).mp h2 with ⟨hle2, _⟩
  exact hne (lexLe_antisymm a b hle1 hle2)

theorem isEmpty_false_of_ne_nil {α : Type} {l : List α} (h : l ≠ []) :
    l.isEmpty = false := by
  cases l with
  | nil => exact absurd rfl h
  | cons a as => rfl

theorem ne_nil_of_isEmpty_false {α : Type} {l : List α} (h : l.isEmpty = false) :
    l ≠ [] := by
  cases l with
  | nil => simp at h
  | cons a as => simp

/-- The element `find?` returns from a `lexLe`-sorted list is `lexLe`-least
among the members satisfying the predicate. -/
theorem find?_min_of_pairwise {p : Name → Bool} {l : List Name} {a : Name}
    (hs : List.Pairwise (fun x y => lexLe x y = true) l)
    (h : l.find? p = some a) :
    ∀ b ∈ l, p b = true → lexLe a b = true := by
  rcases find?_split h with ⟨l1, l2, rfl, h1, h2⟩
  intro b hb hpb
  rcases List.mem_append.mp hb with hb | hb
  · exact absurd hpb (by simp [h1 b hb])
  · rcases List.mem_cons.mp hb with rfl | hb
    · exact lexLe_refl b
    · rcases List.pairwise_append.mp hs with ⟨_, hcons, _⟩
      exact (List.pairwise_cons.mp hcons).1 b hb

/-- What `find_first_build_for_movies` returns: a build of the target that
has the movie, `lexLe`-least (oldest) among all builds that have it. -/
theorem first_build_min (t : Target) {m f : Name}
    (hf : first_build_for_movie t m = some f) :
    f ∈ builds t ∧ movieTokens t f m ≠ []
      ∧ ∀ b ∈ builds t, movieTokens t b m ≠ [] → lexLe f b = true := by
  have hmem := List.mem_of_find?_eq_some hf
  have hpred := List.find?_some hf
  refine ⟨(builds_perm_ascending t).mem_iff.mpr hmem, ?_, ?_⟩
  · intro hcon
    rw [hcon] at hpred
    simp at hpred
  · intro b hb hbne
    have hb2 : b ∈ buildsAscending t := (builds_perm_ascending t).mem_iff.mp hb
    exact find?_min_of_pairwise (buildsAscending_sorted t) hf b hb2
      (by simp [isEmpty_false_of_ne_nil hbne])

/-- When some build has the movie, `find_first_build_for_movies` finds one. -/
theorem first_build_isSome (t : Target) {m : Name}
    (hm : ∃ b ∈ builds t, movieTokens t b m ≠ []) :
    ∃ f, first_build_for_movie t m = some f := by
  rcases hm with ⟨b, hb, hbne⟩
  have hb2 : b ∈ buildsAscending t := (builds_perm_ascending t).mem_iff.mp hb
  have : (first_build_for_movie t m).isSome = true :=
    List.find?_isSome.mpr ⟨b, hb2, by simp [isEmpty_false_of_ne_nil hbne]⟩
  exact Option.isSome_iff_exists.mp this

theorem entryFor_build (t : Target) (m : Name) (i : Nat) (cur : Name) :
    (entryFor t m i cur).build = cur := by
  unfold entryFor
  repeat' split <;> try rfl

theorem entryFor_type_first_iff (t : Target) (m : Name) (i : Nat) (cur : Name) :
    (entryFor t m i cur).type = EntryType.first ↔
      first_build_for_movie t m = some cur := by
  unfold entryFor
  by_cases h : first_build_for_movie t m = some cur
  · simp [h]
  · rw [if_neg h]
    refine iff_of_false ?_ h
    repeat' split
    all_goals simp

theorem countP_congr_on {α : Type} {p q : α → Bool} :
    ∀ l : List α, (∀ a ∈ l, p a = q a) → l.countP p = l.countP q := by
  intro l
  induction l with
  | nil => intro _; rfl
  | cons x xs ih =>
    intro h
    rw [List.countP_cons, List.countP_cons, h x (List.mem_cons_self _ _),
      ih (fun a ha => h a (List.mem_cons_of_mem _ ha))]

/-- The facts carried by a successful reference-build scan: the result is a
build of the target, strictly older than the build at index `i`, and it
satisfies the scanned predicate. -/
theorem find?_drop_facts (t : Target) (hn : t.entries.Nodup) {i : Nat}
    {cur r : Name} {p : Name → Bool} (hc : (builds t)[i]? = some cur)
    (hfind : ((builds t).drop (i + 1)).find? p = some r) :
    r ∈ builds t ∧ lexLt r cur = true ∧ p r = true :=
  ⟨List.mem_of_mem_drop (List.mem_of_find?_eq_some hfind),
   lt_of_mem_drop_builds t hn hc (List.mem_of_find?_eq_some hfind),
   List.find?_some hfind⟩

/-- Nearest-first: every build strictly between the scan's result and the
build at index `i` (in build order) fails the scanned predicate. -/
theorem find?_drop_between (t : Target) (hn : t.entries.Nodup) {i : Nat}
    {cur r : Name} {p : Name → Bool} (hc : (builds t)[i]? = some cur)
    (hfind : ((builds t).drop (i + 1)).find? p = some r) :
    ∀ b ∈ builds t, lexLt r b = true → lexLt b cur = true → p b = false := by
  rcases find?_split hfind with ⟨l1, l2, hdec, hl1, hpr⟩
  intro b hb hrb hbc
  have hsplit : builds t = (builds t).take (i + 1) ++ (l1 ++ r :: l2) := by
    rw [← hdec, List.take_append_drop]
  rw [hsplit] at hb
  rcases List.mem_append.mp hb with hbtake | hbrest
  · exfalso
    have htk : (builds t).take (i + 1) = (builds t).take i ++ [cur] := by
      rw [List.take_succ, hc]
      rfl
    rw [htk] at hbtake
    rcases List.mem_append.mp hbtake with hbt | hbc1
    · have hp := builds_pairwise_gt t hn
      have hcur_drop : cur ∈ (builds t).drop i := by
        apply mem_of_getElem?_eq_some (i := 0)
        rw [List.getElem?_drop]
        simpa using hc
      rw [← List.take_append_drop i (builds t)] at hp
      rcases List.pairwise_append.mp hp with ⟨_, _, hcross⟩
      exact lexLt_asymm hbc (hcross b hbt cur hcur_drop)
    · rcases List.mem_singleton.mp hbc1 with rfl
      exact lexLt_irrefl_false hbc
  · rcases List.mem_append.mp hbrest with hbl1 | hbr
    · exact hl1 b hbl1
    · exfalso
      rcases List.mem_cons.mp hbr with rfl | hbl2
      · exact lexLt_irrefl_false hrb
      · have hd : List.Pairwise (fun a b => lexLt b a = true) ((builds t).drop (i + 1)) :=
          (builds_pairwise_gt t hn).sublist (List.drop_sublist _ _)
        rw [hdec] at hd
        rcases List.pairwise_append.mp hd with ⟨_, hcons, _⟩
        exact lexLt_asymm hrb ((List.pairwise_cons.mp hcons).1 b hbl2)

/-! ### Claim theorems -/

/-- C5: for every movie in the union collected across the target's builds,
the continuity loop emits exactly one entry per build of the descending
sequence — `len(continuous_bars[movie]) = len(builds)`.  The loop body is an
exhaustive `if`/`elif` chain appending exactly one entry per index, and every
fallible call inside it is handled locally (`get_image_diff` catches all
exceptions, `movie_diff` catches the per-frame ones), so the computation is
total — which the embedding reflects by `entryFor` being a total function —
and never raises to its caller for a per-entry failure. -/
theorem continuity_bar_length (t : Target) (m : Name) (_hm : m ∈ allMovies t) :
    (continuousBars t m).length = (builds t).length := by
  unfold continuousBars
  rw [List.length_map, List.enum_length]

theorem continuity_bar_length_witness :
    "intro".data ∈ allMovies sampleTarget
      ∧ (continuousBars sampleTarget "intro".data).length
          = (builds sampleTarget).length :=
  ⟨by decide, continuity_bar_length sampleTarget "intro".data (by decide)⟩

/-- C8, counterexample: the Frame Index (`collect_movie_frames`) stores the
raw frame-number tokens in directory-listing order, it does not parse or
sort them.  For a build listing `m-2.png` before `m-1.png` the stored list
is `["2", "1"]`; read as numbers that is `[2, 1]`, which is not sorted —
refuting the claim that a sorted list of parsed frame numbers is produced. -/
theorem frame_index_unsorted_counterexample :
    movieTokens unsortedTarget "b".data "m".data = ["2".data, "1".data]
      ∧ (movieTokens unsortedTarget "b".data "m".data).map
          (fun tok => (pyInt tok).getD 0) = [2, 1]
      ∧ ¬ List.Pairwise (fun a b : Int => a ≤ b) [2, 1] :=
  ⟨by decide, by decide, by decide⟩

/-- C8, amended: for every target, build and movie, the Frame Index produces
the list of raw frame-number tokens (the substring between the first `-` and
the following `.`) of the build's regular files whose movie head is the
movie, in directory-listing order (unsorted, unparsed — a non-numeric token
is kept as is, not defaulted to 0); filenames without a `-` separator are
excluded, and a build directory with zero files yields an empty mapping
rather than an error. -/
theorem frame_index_tokens_actual (t : Target) (b m : Name) :
    movieTokens t b m
      = ((t.listdir b).filter
          (fun f => t.isfile b f && hasSep f && moviePart f == m)).map frameTok
    ∧ (t.listdir b = [] → movieTokens t b m = []) := by
  constructor
  · exact movieTokens_eq_tokensOf t b m
  · intro h
    rw [movieTokens_eq_tokensOf]
    unfold tokensOf
    rw [h]
    rfl

theorem frame_index_tokens_actual_witness :
    unsortedTarget.listdir "c".data = []
      ∧ movieTokens unsortedTarget "c".data "m".data = [] :=
  ⟨by decide, (frame_index_tokens_actual unsortedTarget "c".data "m".data).2 (by decide)⟩

/-- C1, counterexample: when both resolved frame paths exist but the pixel
work inside `image_diff` fails with `IOError`, `image_diff` swallows the
error and returns `{}`; `get_image_diff` caches and returns that empty dict,
and every consumer's `.get('has_diff', False)` reads it as *no difference* —
the result does not degrade to `differs=true`, so such an errored comparison
is silently reported as "no diff". -/
theorem get_image_diff_ioerror_counterexample :
    ioTarget.fexists "a".data (frameFileName "m".data "1".data) = true
      ∧ ioTarget.px ("a".data, frameFileName "m".data "1".data)
          ("b".data, frameFileName "m".data "1".data) = PixelOutcome.ioError
      ∧ get_image_diff ioTarget "a".data "b".data "m".data "1".data
          = ImgDiffResult.empty
      ∧ (get_image_diff ioTarget "a".data "b".data "m".data "1".data).getHasDiff
          = false :=
  ⟨rfl, rfl, by decide, by decide⟩

/-- C1, amended: `get_image_diff` yields `has_diff = true` when either
resolved frame path is absent, and when the `image_diff` call raises (any
non-`IOError` exception); but when the pixel work fails with `IOError`,
`image_diff` returns the empty dict, which `get_image_diff` passes through
and consumers read as "no diff". -/
theorem get_image_diff_conservative_defaults (t : Target) (cur prev m fr : Name) :
    (¬(t.fexists cur (frameFileName m fr) = true
        ∧ t.fexists prev (frameFileName m fr) = true) →
      (get_image_diff t cur prev m fr).getHasDiff = true)
    ∧ (t.px (cur, frameFileName m fr) (prev, frameFileName m fr) = PixelOutcome.exc →
      (get_image_diff t cur prev m fr).getHasDiff = true)
    ∧ (t.fexists cur (frameFileName m fr) = true →
       t.fexists prev (frameFileName m fr) = true →
       t.px (cur, frameFileName m fr) (prev, frameFileName m fr) = PixelOutcome.ioError →
       get_image_diff t cur prev m fr = ImgDiffResult.empty) := by
  refine ⟨?_, ?_, ?_⟩
  · intro h
    unfold get_image_diff
    rw [if_neg (by simpa [Bool.and_eq_true] using h)]
    rfl
  · intro hpx
    unfold get_image_diff
    by_cases hex : (t.fexists cur (frameFileName m fr)
        && t.fexists prev (frameFileName m fr)) = true
    · rw [if_pos hex]
      simp [image_diff, hpx, ImgDiffResult.getHasDiff]
    · rw [if_neg hex]
      rfl
  · intro h1 h2 hpx
    unfold get_image_diff
    rw [if_pos (by simp [h1, h2])]
    simp [image_diff, hpx]

theorem get_image_diff_conservative_defaults_witness :
    ¬(unsortedTarget.fexists "a".data (frameFileName "m".data "1".data) = true
        ∧ unsortedTarget.fexists "b".data (frameFileName "m".data "1".data) = true)
      ∧ (get_image_diff unsortedTarget "a".data "b".data "m".data "1".data).getHasDiff
          = true :=
  ⟨by decide,
   (get_image_diff_conservative_defaults unsortedTarget
      "a".data "b".data "m".data "1".data).1 (by decide)⟩

theorem lookupCache_append_self (c : List (DiffKey × ImgDiffResult)) (k : DiffKey)
    (v : ImgDiffResult) (h : lookupCache c k = none) :
    lookupCache (c ++ [(k, v)]) k = some v := by
  unfold lookupCache at h ⊢
  have hf : c.find? (fun p => p.1 == k) = none := by
    cases hc : c.find? (fun p => p.1 == k) with
    | none => rfl
    | some p => rw [hc] at h; simp at h
  rw [List.find?_append, hf]
  simp

theorem get_image_diff_st_cached (t : Target) (k : DiffKey) (st : DiffState) :
    lookupCache (get_image_diff_st t k st).2.cache k
      = some (get_image_diff_st t k st).1 := by
  obtain ⟨cur, prev, m, fr⟩ := k
  unfold get_image_diff_st
  cases hl : lookupCache st.cache (cur, prev, m, fr) with
  | some r => simp only [hl]
  | none =>
    simp only [hl]
    by_cases hex : (t.fexists cur (frameFileName m fr)
        && t.fexists prev (frameFileName m fr)) = true
    · rw [if_pos hex]
      cases hres : image_diff t.px (cur, frameFileName m fr) (prev, frameFileName m fr) with
      | ok r =>
        simp only [hres]
        exact lookupCache_append_self _ _ _ hl
      | error e =>
        simp only [hres]
        exact lookupCache_append_self _ _ _ hl
    · rw [if_neg hex]
      exact lookupCache_append_self _ _ _ hl

/-- C9: within one pass, calling the memoized `get_image_diff` twice at the
same `(buildA, buildB, movie, frame)` key issues at most one underlying
`image_diff` invocation (the first call adds at most one to the count, and
the second is a pure cache hit that changes nothing), both calls return the
same memoized result, and — starting from the empty per-pass cache — that
result is the plain `get_image_diff` value. -/
theorem image_diff_cache_memoization (t : Target) (k : DiffKey) (st : DiffState) :
    (get_image_diff_st t k (get_image_diff_st t k st).2).1
        = (get_image_diff_st t k st).1
    ∧ (get_image_diff_st t k (get_image_diff_st t k st).2).2
        = (get_image_diff_st t k st).2
    ∧ (get_image_diff_st t k st).2.pixelCalls ≤ st.pixelCalls + 1
    ∧ (st.cache = [] →
        (get_image_diff_st t k st).1 = get_image_diff t k.1 k.2.1 k.2.2.1 k.2.2.2) := by
  have hcache := get_image_diff_st_cached t k st
  have hsecond : get_image_diff_st t k (get_image_diff_st t k st).2
      = ((get_image_diff_st t k st).1, (get_image_diff_st t k st).2) := by
    conv_lhs => rw [get_image_diff_st]
    rw [hcache]
  refine ⟨by rw [hsecond], by rw [hsecond], ?_, ?_⟩
  · obtain ⟨cur, prev, m, fr⟩ := k
    unfold get_image_diff_st
    cases hl : lookupCache st.cache (cur, prev, m, fr) with
    | some r =>
      simp only [hl]
      exact Nat.le_succ _
    | none =>
      simp only [hl]
      by_cases hex : (t.fexists cur (frameFileName m fr)
          && t.fexists prev (frameFileName m fr)) = true
      · rw [if_pos hex]
        cases hres : image_diff t.px (cur, frameFileName m fr) (prev, frameFileName m fr) with
        | ok r => simp only [hres]; exact Nat.le_refl _
        | error e => simp only [hres]; exact Nat.le_refl _
      · rw [if_neg hex]
        exact Nat.le_succ _
  · intro hc
    obtain ⟨cur, prev, m, fr⟩ := k
    have hl : lookupCache st.cache (cur, prev, m, fr) = none := by
      rw [hc]
      rfl
    unfold get_image_diff_st get_image_diff
    simp only [hl]
    by_cases hex : (t.fexists cur (frameFileName m fr)
        && t.fexists prev (frameFileName m fr)) = true
    · rw [if_pos hex, if_pos hex]
      cases hres : image_diff t.px (cur, frameFileName m fr) (prev, frameFileName m fr) with
      | ok r => simp only [hres]
      | error e => simp only [hres]
    · rw [if_neg hex, if_neg hex]

/-- C10: for existing build directories neither of which holds any regular
file starting with `movie + "-"`, `movie_diff` returns `False`: both frame
lists are empty, the counts agree, the key sets agree, and the frame loop
runs over nothing. -/
theorem movie_diff_absent_both_sides (t : Target) (sb cb m : Name)
    (h1 : t.dirExists sb = true) (h2 : t.dirExists cb = true)
    (h3 : ∀ f ∈ t.listdir sb, t.isfile sb f = true →
        startsWithName (m ++ ['-']) f = false)
    (h4 : ∀ f ∈ t.listdir cb, t.isfile cb f = true →
        startsWithName (m ++ ['-']) f = false) :
    movie_diff t sb cb m = false := by
  have hsrc : movieFrameFiles t sb m = [] := by
    unfold movieFrameFiles
    rw [List.filter_eq_nil_iff]
    intro f hf
    simp only [Bool.and_eq_true, not_and]
    intro hif hsw
    rw [h3 f hf hif] at hsw
    exact Bool.false_ne_true hsw
  have hcmp : movieFrameFiles t cb m = [] := by
    unfold movieFrameFiles
    rw [List.filter_eq_nil_iff]
    intro f hf
    simp only [Bool.and_eq_true, not_and]
    intro hif hsw
    rw [h4 f hf hif] at hsw
    exact Bool.false_ne_true hsw
  unfold movie_diff
  rw [if_neg (by simp [h1, h2])]
  simp only [hsrc, hcmp]
  rfl

theorem movie_diff_absent_both_sides_witness :
    pairTarget.dirExists "a".data = true
      ∧ movie_diff pairTarget "a".data "b".data "zz".data = false :=
  ⟨by decide,
   movie_diff_absent_both_sides pairTarget "a".data "b".data "zz".data
     (by decide) (by decide) (by decide) (by decide)⟩

theorem image_diff_cache_memoization_witness :
    DiffState.cache ⟨[], 0⟩ = []
      ∧ (get_image_diff_st pairTarget ("a".data, "b".data, "m".data, "1".data)
          ⟨[], 0⟩).1
        = get_image_diff pairTarget "a".data "b".data "m".data "1".data :=
  ⟨rfl,
   (image_diff_cache_memoization pairTarget
      ("a".data, "b".data, "m".data, "1".data) ⟨[], 0⟩).2.2.2 rfl⟩

theorem sameSet_eq_true_iff (xs ys : List Int) :
    sameSet xs ys = true ↔ ∀ n : Int, (n ∈ xs ↔ n ∈ ys) := by
  unfold sameSet
  rw [Bool.and_eq_true, List.all_eq_true, List.all_eq_true]
  constructor
  · rintro ⟨hxy, hyx⟩ n
    exact ⟨fun hn => (contains_iff_mem ys n).mp (hxy n hn),
           fun hn => (contains_iff_mem xs n).mp (hyx n hn)⟩
  · intro h
    exact ⟨fun n hn => (contains_iff_mem ys n).mpr ((h n).mp hn),
           fun n hn => (contains_iff_mem xs n).mpr ((h n).mpr hn)⟩

theorem movie_diff_eq (t : Target) (sb cb m : Name)
    (h1 : t.dirExists sb = true) (h2 : t.dirExists cb = true) :
    movie_diff t sb cb m =
      (if (movieFrameFiles t sb m).length != (movieFrameFiles t cb m).length then true
       else if !sameSet ((movieFrameFiles t sb m).map get_frame_number)
                ((movieFrameFiles t cb m).map get_frame_number) then true
       else movieDiffLoop t sb cb (movieFrameFiles t sb m) (movieFrameFiles t cb m)
              (allFrameNumbers ((movieFrameFiles t sb m).map get_frame_number)
                ((movieFrameFiles t cb m).map get_frame_number))) := by
  unfold movie_diff
  rw [if_neg (by simp [h1, h2])]

/-- C3: for existing build directories, `movie_diff` returns `True` as soon
as the frame-number key sets of the two builds differ or any individual
common frame fails its check — where a frame fails (`frameOK = false`) when
its `image_diff` call raises an exception (treated as a difference, not an
abort) or the returned dict's `has_diff` is true; it returns `False` only if
both builds expose identical frame-number sets and every common frame
passes.  Short-circuiting: every frame on which `image_diff` was actually
invoked (the instrumented trace) has all smaller frame numbers passing their
check, so no frame past the first detected difference is compared.  (An
`IOError` swallowed inside `image_diff` yields the empty dict, read as "no
difference": such a frame *passes* the check; the exceptions the claim's
error clause speaks of are the ones `image_diff` itself raises.) -/
theorem movie_diff_characterization (t : Target) (sb cb m : Name)
    (h1 : t.dirExists sb = true) (h2 : t.dirExists cb = true) :
    ((¬ ∀ n : Int, (n ∈ (movieFrameFiles t sb m).map get_frame_number
        ↔ n ∈ (movieFrameFiles t cb m).map get_frame_number)) →
      movie_diff t sb cb m = true)
    ∧ (∀ n : Int, n ∈ (movieFrameFiles t sb m).map get_frame_number →
        n ∈ (movieFrameFiles t cb m).map get_frame_number →
        frameOK t sb cb (movieFrameFiles t sb m) (movieFrameFiles t cb m) n = false →
        movie_diff t sb cb m = true)
    ∧ (movie_diff t sb cb m = false →
        (∀ n : Int, (n ∈ (movieFrameFiles t sb m).map get_frame_number
          ↔ n ∈ (movieFrameFiles t cb m).map get_frame_number))
        ∧ (∀ n : Int, n ∈ (movieFrameFiles t sb m).map get_frame_number →
           frameOK t sb cb (movieFrameFiles t sb m) (movieFrameFiles t cb m) n = true))
    ∧ (∀ n ∈ (movieDiffRun t sb cb (movieFrameFiles t sb m) (movieFrameFiles t cb m)
          (allFrameNumbers ((movieFrameFiles t sb m).map get_frame_number)
            ((movieFrameFiles t cb m).map get_frame_number))).2,
        ∀ k : Int, (k ∈ (movieFrameFiles t sb m).map get_frame_number
            ∨ k ∈ (movieFrameFiles t cb m).map get_frame_number) → k < n →
        frameOK t sb cb (movieFrameFiles t sb m) (movieFrameFiles t cb m) k = true) := by
  have hA : (¬ ∀ n : Int, (n ∈ (movieFrameFiles t sb m).map get_frame_number
      ↔ n ∈ (movieFrameFiles t cb m).map get_frame_number)) →
      movie_diff t sb cb m = true := by
    intro hset
    rw [movie_diff_eq t sb cb m h1 h2]
    by_cases hlen : ((movieFrameFiles t sb m).length
        != (movieFrameFiles t cb m).length) = true
    · rw [if_pos hlen]
    · rw [if_neg hlen]
      have hss : sameSet ((movieFrameFiles t sb m).map get_frame_number)
          ((movieFrameFiles t cb m).map get_frame_number) = false := by
        refine Bool.eq_false_iff.mpr (fun h => ?_)
        exact hset ((sameSet_eq_true_iff _ _).mp h)
      rw [hss]
      simp
  have hB : ∀ n : Int, n ∈ (movieFrameFiles t sb m).map get_frame_number →
      n ∈ (movieFrameFiles t cb m).map get_frame_number →
      frameOK t sb cb (movieFrameFiles t sb m) (movieFrameFiles t cb m) n = false →
      movie_diff t sb cb m = true := by
    intro n hns hnc hbad
    rw [movie_diff_eq t sb cb m h1 h2]
    by_cases hlen : ((movieFrameFiles t sb m).length
        != (movieFrameFiles t cb m).length) = true
    · rw [if_pos hlen]
    · rw [if_neg hlen]
      by_cases hss : (!sameSet ((movieFrameFiles t sb m).map get_frame_number)
          ((movieFrameFiles t cb m).map get_frame_number)) = true
      · rw [if_pos hss]
      · rw [if_neg hss]
        rw [movieDiffLoop_eq_any]
        apply List.any_eq_true.mpr
        exact ⟨n, (mem_allFrameNumbers _ _ n).mpr (Or.inl hns), by simp [hbad]⟩
  refine ⟨hA, hB, ?_, ?_⟩
  · intro hfalse
    have hsets : ∀ n : Int, (n ∈ (movieFrameFiles t sb m).map get_frame_number
        ↔ n ∈ (movieFrameFiles t cb m).map get_frame_number) := by
      by_contra hset
      rw [hA hset] at hfalse
      simp at hfalse
    refine ⟨hsets, fun n hn => ?_⟩
    by_cases hok : frameOK t sb cb (movieFrameFiles t sb m)
        (movieFrameFiles t cb m) n = true
    · exact hok
    · rw [hB n hn ((hsets n).mp hn) (Bool.eq_false_iff.mpr hok)] at hfalse
      simp at hfalse
  · intro n hn k hk hkn
    exact movieDiffRun_compared_ok_below t sb cb _ _ _
      (allFrameNumbers_pairwise_lt _ _) n hn k
      ((mem_allFrameNumbers _ _ k).mpr hk) hkn

theorem movie_diff_characterization_witness :
    pairTarget.dirExists "a".data = true
      ∧ movie_diff pairTarget "a".data "b".data "m".data = true :=
  ⟨by decide,
   (movie_diff_characterization pairTarget "a".data "b".data "m".data
      (by decide) (by decide)).2.1 1 (by decide) (by decide) (by decide)⟩

/-- C2, counterexample: on the spec's end-to-end scenario (builds
`["3","2","1"]` descending, movie `intro` with frames {1,2} in builds `3`
and `1`, absent in `2`) the engine emits build `3` → `readded`, build `2` →
`diff`/skipped, build `1` → `first` — not the claimed
`first`/`diff`/`unknown`: `find_first_build_for_movies` scans ascending, so
the *oldest* build containing the movie gets `first`, and the `first` check
precedes the oldest-build `unknown` case. -/
theorem continuity_scenario_counterexample :
    builds sampleTarget = ["3".data, "2".data, "1".data]
      ∧ (continuousBars sampleTarget "intro".data).map Entry.type
          = [EntryType.readded, EntryType.diff, EntryType.first]
      ∧ [EntryType.readded, EntryType.diff, EntryType.first]
          ≠ [EntryType.first, EntryType.diff, EntryType.unknown] :=
  ⟨by decide, by decide, by decide⟩

/-- C2, amended: on that scenario the engine emits build `3` → `readded`
with reference build `1` and common frames {1,2} (no difference, since the
frames match); build `2` → `diff`/skipped with `reference_build = "1"` and
`has_diff = false`; build `1` → `first` (it is the oldest build containing
the movie, and the `first` branch wins over the oldest-build `unknown`
branch). -/
theorem continuity_scenario_actual :
    continuousBars sampleTarget "intro".data
      = [{ build := "3".data, type := EntryType.readded,
           compare_with := some "1".data,
           commonFrames := ["1".data, "2".data], has_diff := some false },
         { build := "2".data, type := EntryType.diff,
           reference_build := some "1".data, has_diff := some false,
           isSkipped := true, compare_with := some "1".data },
         { build := "1".data, type := EntryType.first }] := by decide

/-- C4: for every target with distinct directory entries and every known
movie, exactly one emitted continuity entry has type `first`, it belongs to
the build `find_first_build_for_movies` selects, and that build is the
chronologically oldest (code-point least) build whose frame set for the
movie is non-empty. -/
theorem first_entry_unique_oldest (t : Target) (m : Name)
    (hn : t.entries.Nodup) (hm : m ∈ allMovies t) :
    ∃ f, first_build_for_movie t m = some f
      ∧ f ∈ builds t
      ∧ movieTokens t f m ≠ []
      ∧ (∀ b ∈ builds t, movieTokens t b m ≠ [] → lexLe f b = true)
      ∧ (continuousBars t m).countP (fun e => e.type == EntryType.first) = 1
      ∧ (∀ e ∈ continuousBars t m, e.type = EntryType.first → e.build = f) := by
  obtain ⟨f, hf⟩ := first_build_isSome t ((mem_allMovies t m).mp hm)
  obtain ⟨hfb, hfne, hfmin⟩ := first_build_min t hf
  refine ⟨f, hf, hfb, hfne, hfmin, ?_, ?_⟩
  · have hstep1 : (continuousBars t m).countP (fun e => e.type == EntryType.first)
        = (builds t).countP (fun b => decide (first_build_for_movie t m = some b)) := by
      unfold continuousBars
      rw [List.countP_map]
      rw [countP_congr_on (builds t).enum (q :=
        (fun b => decide (first_build_for_movie t m = some b)) ∘ Prod.snd) ?_]
      · rw [← List.countP_map, List.enum_map_snd]
      · intro p _
        simp only [Function.comp]
        by_cases h : first_build_for_movie t m = some p.2
        · have ht := (entryFor_type_first_iff t m p.1 p.2).mpr h
          simp [ht, h]
        · have ht : (entryFor t m p.1 p.2).type ≠ EntryType.first :=
            fun hc => h ((entryFor_type_first_iff t m p.1 p.2).mp hc)
          simp [h, ht]
    rw [hstep1]
    obtain ⟨l1, l2, hdec⟩ := List.append_of_mem hfb
    rw [hdec, List.countP_append, List.countP_cons]
    have hnd : (l1 ++ f :: l2).Nodup := hdec ▸ builds_nodup t hn
    rcases List.nodup_append.mp hnd with ⟨hnd1, hnd2, hdisj⟩
    have hf1 : f ∉ l1 := fun hmem => hdisj hmem (List.mem_cons_self _ _)
    have hf2 : f ∉ l2 := (List.nodup_cons.mp hnd2).1
    have hc1 : l1.countP (fun b => decide (first_build_for_movie t m = some b)) = 0 := by
      rw [List.countP_eq_zero]
      intro b hb
      rw [decide_eq_true_iff]
      intro hc
      rw [hf] at hc
      exact hf1 (Option.some.inj hc ▸ hb)
    have hc2 : l2.countP (fun b => decide (first_build_for_movie t m = some b)) = 0 := by
      rw [List.countP_eq_zero]
      intro b hb
      rw [decide_eq_true_iff]
      intro hc
      rw [hf] at hc
      exact hf2 (Option.some.inj hc ▸ hb)
    rw [hc1, hc2, if_pos (by simp [hf])]
  · intro e he htype
    obtain ⟨i, cur, hcur, rfl⟩ := mem_continuousBars t m he
    rw [entryFor_build]
    have hsome := (entryFor_type_first_iff t m i cur).mp htype
    rw [hf] at hsome
    exact (Option.some.inj hsome).symm

theorem first_entry_unique_oldest_witness :
    sampleTarget.entries.Nodup
      ∧ (continuousBars sampleTarget "intro".data).countP
          (fun e => e.type == EntryType.first) = 1 := by
  refine ⟨by decide, ?_⟩
  obtain ⟨f, h⟩ :=
    first_entry_unique_oldest sampleTarget "intro".data (by decide) (by decide)
  exact h.2.2.2.2.1

/-- C6: in every emitted continuity entry, a carried reference build
(`reference_build`, set by the skipped-build branch) is strictly older
(code-point smaller) than the entry's build, is a build of the target whose
frame set for the movie is non-empty, and is nearest-first: every build
strictly between it and the entry's build (in build order, which the scan
follows index-by-index over the descending sequence) has an empty frame set
for the movie.  Likewise every carried `compare_with` baseline is strictly
older than the entry's build — never equal, never newer. -/
theorem reference_build_strictly_older (t : Target) (m : Name)
    (hn : t.entries.Nodup) :
    ∀ e ∈ continuousBars t m,
      (∀ r, e.reference_build = some r →
        lexLt r e.build = true ∧ r ∈ builds t ∧ movieTokens t r m ≠ []
          ∧ ∀ b ∈ builds t, lexLt r b = true → lexLt b e.build = true →
              movieTokens t b m = [])
      ∧ (∀ r, e.compare_with = some r → lexLt r e.build = true) := by
  intro e he
  obtain ⟨i, cur, hcur, rfl⟩ := mem_continuousBars t m he
  by_cases hfirst : first_build_for_movie t m = some cur
  · have hE : entryFor t m i cur = { build := cur, type := EntryType.first } := by
      unfold entryFor
      rw [if_pos hfirst]
    rw [hE]
    exact ⟨fun r hr => by simp at hr, fun r hr => by simp at hr⟩
  · cases hprev : (builds t)[i + 1]? with
    | none =>
      have hE : entryFor t m i cur = { build := cur, type := EntryType.unknown } := by
        unfold entryFor
        rw [if_neg hfirst, hprev]
      rw [hE]
      exact ⟨fun r hr => by simp at hr, fun r hr => by simp at hr⟩
    | some prev =>
      have hprevdrop : prev ∈ (builds t).drop (i + 1) := by
        apply mem_of_getElem?_eq_some (i := 0)
        rw [List.getElem?_drop]
        simpa using hprev
      by_cases hpe : prev.isEmpty = true
      · have hE : entryFor t m i cur = { build := cur, type := EntryType.unknown } := by
          unfold entryFor
          rw [if_neg hfirst, hprev]
          dsimp only
          rw [if_pos hpe]
        rw [hE]
        exact ⟨fun r hr => by simp at hr, fun r hr => by simp at hr⟩
      · by_cases hcurE : (movieTokens t cur m).isEmpty = true
        · cases hrd : (movie_reference_builds t m i cur).build with
          | none =>
            have hE : entryFor t m i cur
                = { build := cur, type := EntryType.missing } := by
              unfold entryFor
              rw [if_neg hfirst, hprev]
              dsimp only
              rw [if_neg hpe, if_pos hcurE]
              rw [hrd]
            rw [hE]
            exact ⟨fun r hr => by simp at hr, fun r hr => by simp at hr⟩
          | some r0 =>
            have hfind : ((builds t).drop (i + 1)).find?
                (fun b => !(movieTokens t b m).isEmpty) = some r0 := by
              have hrd2 := hrd
              unfold movie_reference_builds at hrd2
              rw [if_pos hcurE] at hrd2
              exact hrd2
            obtain ⟨hrmem, hrlt, hrpred⟩ := find?_drop_facts t hn hcur hfind
            have hbet := find?_drop_between t hn hcur hfind
            have hE : entryFor t m i cur
                = { build := cur, reference_build := some r0,
                    type := EntryType.diff, has_diff := some false,
                    isSkipped := true, compare_with := some r0 } := by
              unfold entryFor
              rw [if_neg hfirst, hprev]
              dsimp only
              rw [if_neg hpe, if_pos hcurE]
              rw [hrd]
            rw [hE]
            constructor
            · intro r hr
              have hr0 : r0 = r := by simpa using hr
              subst hr0
              refine ⟨hrlt, hrmem,
                ne_nil_of_isEmpty_false (by simpa using hrpred), ?_⟩
              intro b hb hb1 hb2
              have hpb := hbet b hb hb1 hb2
              have hbE : (movieTokens t b m).isEmpty = true := by
                simpa using hpb
              exact List.isEmpty_iff.mp hbE
            · intro r hr
              have hr0 : r0 = r := by simpa using hr
              subst hr0
              exact hrlt
        · by_cases hprevE : (movieTokens t prev m).isEmpty = true
          · -- the "readded" branch
            have hEproj : (entryFor t m i cur).reference_build = none
                ∧ (entryFor t m i cur).compare_with
                    = (movie_reference_builds t m i cur).build
                ∧ (entryFor t m i cur).build = cur := by
              unfold entryFor
              rw [if_neg hfirst, hprev]
              dsimp only
              rw [if_neg hpe, if_neg hcurE, if_neg (by simp [hprevE])]
              exact ⟨rfl, rfl, rfl⟩
            rcases hEproj with ⟨hp1, hp2, hp3⟩
            constructor
            · intro r hr
              rw [hp1] at hr
              simp at hr
            · intro r hr
              rw [hp2] at hr
              rw [hp3]
              have hfind : ((builds t).drop (i + 1)).find?
                  (fun b => !(movieTokens t b m).isEmpty
                    && !(pySetInter (movieTokens t cur m) (movieTokens t b m)).isEmpty)
                  = some r := by
                unfold movie_reference_builds at hr
                rw [if_neg hcurE] at hr
                cases hfd : ((builds t).drop (i + 1)).find?
                    (fun b => !(movieTokens t b m).isEmpty
                      && !(pySetInter (movieTokens t cur m) (movieTokens t b m)).isEmpty) with
                | some b =>
                  rw [hfd] at hr
                  have hbr : b = r := by simpa using hr
                  rw [hbr]
                | none =>
                  rw [hfd] at hr
                  simp at hr
              exact (find?_drop_facts t hn hcur hfind).2.1
          · -- the two "diff against the immediately older build" branches
            have hEproj : (entryFor t m i cur).reference_build = none
                ∧ (entryFor t m i cur).compare_with = some prev
                ∧ (entryFor t m i cur).build = cur := by
              unfold entryFor
              rw [if_neg hfirst, hprev]
              dsimp only
              rw [if_neg hpe, if_neg hcurE, if_pos (by simp [hprevE])]
              by_cases hlen : (movieTokens t cur m).length
                  < (movieTokens t prev m).length
              · rw [if_pos hlen]
                exact ⟨rfl, rfl, rfl⟩
              · rw [if_neg hlen]
                exact ⟨rfl, rfl, rfl⟩
            rcases hEproj with ⟨hp1, hp2, hp3⟩
            constructor
            · intro r hr
              rw [hp1] at hr
              simp at hr
            · intro r hr
              rw [hp2] at hr
              have hpr : prev = r := by simpa using hr
              subst hpr
              rw [hp3]
              exact lt_of_mem_drop_builds t hn hcur hprevdrop

theorem reference_build_strictly_older_witness :
    sampleTarget.entries.Nodup ∧ lexLt "1".data "2".data = true := by
  refine ⟨by decide, ?_⟩
  have h := reference_build_strictly_older sampleTarget "intro".data (by decide)
  have he : (continuousBars sampleTarget "intro".data)[1]?
      = some (entryFor sampleTarget "intro".data 1 "2".data) := by decide
  have hc := (h _ (mem_of_getElem?_eq_some he)).2 "1".data (by decide)
  rw [entryFor_build] at hc
  exact hc

/-- C7: when the build at index `i` (newer, `A`) has a strictly smaller
frame set for the movie than the next-older build `B = builds[i+1]`, the
emitted entry is a `diff` entry flagged `is_partial`, compared against `B`,
and its `has_diff` is the short-circuited disjunction over the
*intersection* of the two token sets only: it is `true` iff some common
frame's `get_image_diff` reports a difference — a frame present only in `B`
cannot by itself produce `has_diff = true`. -/
theorem shrinking_frames_partial_entry (t : Target) (m A B : Name) (i : Nat)
    (hn : t.entries.Nodup)
    (hA : (builds t)[i]? = some A) (hB : (builds t)[i + 1]? = some B)
    (hBne : B ≠ []) (hAn : movieTokens t A m ≠ []) (hBn : movieTokens t B m ≠ [])
    (hlt : (movieTokens t A m).length < (movieTokens t B m).length) :
    (continuousBars t m)[i]? = some (entryFor t m i A)
    ∧ (entryFor t m i A).type = EntryType.diff
    ∧ (entryFor t m i A).isPartial = true
    ∧ (entryFor t m i A).compare_with = some B
    ∧ (entryFor t m i A).build = A
    ∧ (entryFor t m i A).has_diff
        = some ((pySetInter (movieTokens t A m) (movieTokens t B m)).any
            (fun fr => (get_image_diff t A B m fr).getHasDiff))
    ∧ ((entryFor t m i A).has_diff = some true ↔
        ∃ fr, fr ∈ movieTokens t A m ∧ fr ∈ movieTokens t B m
          ∧ (get_image_diff t A B m fr).getHasDiff = true) := by
  have hBdrop : B ∈ (builds t).drop (i + 1) := by
    apply mem_of_getElem?_eq_some (i := 0)
    rw [List.getElem?_drop]
    simpa using hB
  have hBA : lexLt B A = true := lt_of_mem_drop_builds t hn hA hBdrop
  have hBb : B ∈ builds t := List.mem_of_mem_drop hBdrop
  obtain ⟨f, hf⟩ := first_build_isSome t ⟨B, hBb, hBn⟩
  have hfirst : ¬ first_build_for_movie t m = some A := by
    intro hc
    rw [hf] at hc
    have hfA : f = A := Option.some.inj hc
    have hle := (first_build_min t hf).2.2 B hBb hBn
    rw [hfA] at hle
    rcases (lexLt_iff B A).mp hBA with ⟨hle2, hne⟩
    exact hne (lexLe_antisymm B A hle2 hle)
  have hE : entryFor t m i A
      = { build := A,
          has_diff := some ((pySetInter (movieTokens t A m) (movieTokens t B m)).any
            (fun fr => (get_image_diff t A B m fr).getHasDiff)),
          compare_with := some B, type := EntryType.diff, isPartial := true } := by
    unfold entryFor
    rw [if_neg hfirst, hB]
    dsimp only
    rw [if_neg (by simp [isEmpty_false_of_ne_nil hBne]),
      if_neg (by simp [isEmpty_false_of_ne_nil hAn]),
      if_pos (by simp [isEmpty_false_of_ne_nil hBn]), if_pos hlt]
  refine ⟨?_, by rw [hE], by rw [hE], by rw [hE], by rw [hE], by rw [hE], ?_⟩
  · rw [continuousBars_getElem?, hA]
    rfl
  · rw [hE]
    constructor
    · intro h
      have hany : (pySetInter (movieTokens t A m) (movieTokens t B m)).any
          (fun fr => (get_image_diff t A B m fr).getHasDiff) = true := by
        simpa using h
      rcases List.any_eq_true.mp hany with ⟨fr, hfr, hd⟩
      rcases (mem_pySetInter _ _ fr).mp hfr with ⟨h1, h2⟩
      exact ⟨fr, h1, h2, hd⟩
    · rintro ⟨fr, h1, h2, hd⟩
      have hany : (pySetInter (movieTokens t A m) (movieTokens t B m)).any
          (fun fr => (get_image_diff t A B m fr).getHasDiff) = true :=
        List.any_eq_true.mpr ⟨fr, (mem_pySetInter _ _ fr).mpr ⟨h1, h2⟩, hd⟩
      exact congrArg some hany

theorem shrinking_frames_partial_entry_witness :
    (builds shrinkTarget)[0]? = some "2".data
      ∧ (continuousBars shrinkTarget "m".data)[0]?
          = some (entryFor shrinkTarget "m".data 0 "2".data)
      ∧ (entryFor shrinkTarget "m".data 0 "2".data).isPartial = true := by
  refine ⟨by decide, ?_, ?_⟩
  · exact (shrinking_frames_partial_entry shrinkTarget "m".data "2".data "1".data 0
      (by decide) (by decide) (by decide) (by decide) (by decide) (by decide)
      (by decide)).1
  · exact (shrinking_frames_partial_entry shrinkTarget "m".data "2".data "1".data 0
      (by decide) (by decide) (by decide) (by decide) (by decide) (by decide)
      (by decide)).2.2.1
